import Mathlib

/-!
Verification of `Signal.breakpoint` (Breakpoints.js).

The development shallowly embeds the single source file `src/index.js`.
JavaScript numbers that the program actually handles are integers, so they
are modelled as `Int`; the distinguished non-number values the program
stores in `_currentBreakpoint` (`undefined` before `configure`, `null`
after `reset`) are modelled by an explicit sum type `BpVal`.  Arrays are
modelled by a heap (`Nat → List Int`) with reference indices, so that the
aliasing behaviour of `_configure` (which keeps a reference to the caller's
`breakpoints` array and sorts it in place) and the deep-copy behaviour of
`_getConfig` (a JSON round trip) are both visible.
-/

namespace Breakpoints

/-- A JavaScript value that can sit in `_currentBreakpoint`:
a number, `null` (written by `_reset`), or `undefined` (the initial value). -/
inductive BpVal
  | num (n : Int)
  | null
  | undef
deriving DecidableEq, Repr

/-- Notifications emitted through the observable (`_observable.trigger`).
`enterBp b p` models `trigger('enter' + b, p)` (the breakpoint-specific
enter signal, whose event name carries `b` and whose payload is `p`);
`enter p` models the generic `trigger('enter', p)`; likewise for exit. -/
inductive Ev
  | enterBp (name : Int) (payload : Int)
  | enter (payload : Int)
  | exitBp (name : Int) (payload : Int)
  | exit (payload : Int)
deriving DecidableEq, Repr

/-- JavaScript truthiness of `breakpoints[i]` where a missing index reads
`undefined` (falsy) and a number is falsy exactly when it is `0`. -/
def jsTruthy : Option Int → Bool
  | none => false
  | some n => !(n == 0)

/-- The body of the `for` loop of `_determineCurrentBreakpoint`
(src/index.js lines 160-188), with the loop index `idx` explicit and fuel
for the remaining iterations.  `breakpoints[idx - 1]` at `idx = 0` reads
index `-1`, which is `undefined`, hence the `if idx = 0 then none` guard. -/
def detLoop (width : Int) (breakpoints : List Int) : Nat → Nat → Int
  | _, 0 => -1
  | idx, fuel + 1 =>
    match breakpoints.get? idx with
    | none => -1
    | some breakpoint =>
      let prevbreakpoint := if idx = 0 then none else breakpoints.get? (idx - 1)
      let nextbreakpoint := breakpoints.get? (idx + 1)
      if !jsTruthy prevbreakpoint && decide (width ≤ breakpoint) then breakpoint
      else if !jsTruthy nextbreakpoint then breakpoint
      else if decide (width ≥ breakpoint) && decide (width < nextbreakpoint.getD 0) then
        breakpoint
      else detLoop width breakpoints (idx + 1) fuel

/-- `_determineCurrentBreakpoint` of src/index.js: walk the breakpoint
array from index `0`; the loop runs at most `breakpoints.length` times. -/
def _determineCurrentBreakpoint (width : Int) (breakpoints : List Int) : Int :=
  detLoop width breakpoints 0 breakpoints.length

/-- `_numericSort` of src/index.js: `arr.sort((a, b) => a - b)`, i.e. a
stable ascending numeric sort of the array (performed in place by JS;
the in-place write is modelled at the call site in `_configure`). -/
def _numericSort (arr : List Int) : List Int :=
  arr.insertionSort (· ≤ ·)

/-- The `_options` object: `classBody` by value, `breakpoints` a reference
into the array heap (JS object fields holding arrays are references). -/
structure Options where
  classBody : Bool
  breakpoints : Nat
deriving DecidableEq, Repr

/-- A `settings` argument to `configure`: each recognised key is either
absent or present; a present `breakpoints` key is an array reference. -/
structure Settings where
  classBody : Option Bool
  breakpoints : Option Nat
deriving DecidableEq, Repr

/-- The `_defaults.breakpoints` literal (src/index.js line 79). -/
def defaultsBreakpoints : List Int := [320, 480, 768, 992, 1200]

/-- The `_defaults.classBody` literal (src/index.js line 78). -/
def defaultsClassBody : Bool := true

/-- The heap reference at which `_defaults.breakpoints` lives.  It is
private to the module closure, so callers can never pass it inside a
`settings` object. -/
def defaultsRef : Nat := 0

/-- The whole mutable state of the module closure plus the external
resources it touches: the array heap (with an allocation counter), the
stored `_width`, `_currentBreakpoint`, `_options`, the body's class list,
the set of events the `_window` DOM element listens on with handler
`_resize` (DOM `addEventListener` deduplicates an identical
event/handler pair, so a set of event names suffices), and whether the
`signalWindow` resize subscription is active. -/
structure St where
  heap : Nat → List Int
  nextRef : Nat
  width : Int
  currentBreakpoint : BpVal
  options : Options
  bodyClasses : List String
  domListeners : List String
  resizeSubscribed : Bool

/-- `classList.add`: appends the class unless already present. -/
def addClass (classes : List String) (c : String) : List String :=
  if c ∈ classes then classes else classes ++ [c]

/-- `classList.remove`: removes the class. -/
def removeClass (classes : List String) (c : String) : List String :=
  classes.filter (fun x => x ≠ c)

/-- `Dom.prototype.on` (src/index.js lines 40-42): `addEventListener`. -/
def domOn (listeners : List String) (eventName : String) : List String :=
  if eventName ∈ listeners then listeners else listeners ++ [eventName]

/-- `Dom.prototype.off` as written in the source (src/index.js lines
44-46): its body also calls `addEventListener`, identical to `on` — it
does not remove the listener. -/
def domOff (listeners : List String) (eventName : String) : List String :=
  if eventName ∈ listeners then listeners else listeners ++ [eventName]

/-- Reading the current breakpoints array: `_options.breakpoints`. -/
def optionsBreakpoints (st : St) : List Int :=
  st.heap st.options.breakpoints

/-- `_enterBreakpoint` (src/index.js lines 208-215): guarded by
`!breakpoint || breakpoint <= 0`; adds the body class when `classBody`
is set, then triggers the specific and the generic enter signals. -/
def _enterBreakpoint (st : St) (breakpoint : BpVal) : St × List Ev :=
  match breakpoint with
  | .null => (st, [])
  | .undef => (st, [])
  | .num n =>
    if n = 0 ∨ n ≤ 0 then (st, [])
    else
      let st1 :=
        if st.options.classBody then
          { st with bodyClasses := addClass st.bodyClasses ("breakpoint-" ++ toString n) }
        else st
      (st1, [.enterBp n n, .enter n])

/-- `_exitBreakpoint` (src/index.js lines 217-224): same guard; removes
the body class, then triggers the specific and the generic exit signals. -/
def _exitBreakpoint (st : St) (breakpoint : BpVal) : St × List Ev :=
  match breakpoint with
  | .null => (st, [])
  | .undef => (st, [])
  | .num n =>
    if n = 0 ∨ n ≤ 0 then (st, [])
    else
      let st1 :=
        if st.options.classBody then
          { st with bodyClasses := removeClass st.bodyClasses ("breakpoint-" ++ toString n) }
        else st
      (st1, [.exitBp n n, .exit n])

/-- `_resize` (src/index.js lines 195-204): recompute the bucket; if it
`===`-equals `_currentBreakpoint`, stop; otherwise exit the old one,
enter the new one, then assign `_currentBreakpoint`. -/
def _resize (st : St) : St × List Ev :=
  let resizeBreakpoint := _determineCurrentBreakpoint st.width (optionsBreakpoints st)
  if BpVal.num resizeBreakpoint = st.currentBreakpoint then (st, [])
  else
    let r1 := _exitBreakpoint st st.currentBreakpoint
    let r2 := _enterBreakpoint r1.1 (.num resizeBreakpoint)
    ({ r2.1 with currentBreakpoint := .num resizeBreakpoint }, r1.2 ++ r2.2)

/-- `_bind` (src/index.js lines 135-147): subscribe the resize handler on
`signalWindow` and add the `focus` listener (handler `_resize`). -/
def _bind (st : St) : St :=
  { st with resizeSubscribed := true, domListeners := domOn st.domListeners "focus" }

/-- `_unbind` (src/index.js lines 149-152): remove the `signalWindow`
subscription (an external collaborator, assumed correct) and call
`Dom.prototype.off` for `focus` — which, as written, adds the listener. -/
def _unbind (st : St) : St :=
  { st with resizeSubscribed := false, domListeners := domOff st.domListeners "focus" }

/-- `_configure` (src/index.js lines 96-111): copy every `_defaults` key
into `_options`, copy every `settings` key over it, sort
`_options.breakpoints` in place (the sort mutates the referenced array
and the reference is stored back), bind, compute the current breakpoint
and enter it. -/
def _configure (st : St) (settings : Settings) : St × List Ev :=
  let opts : Options :=
    { classBody := settings.classBody.getD defaultsClassBody,
      breakpoints := settings.breakpoints.getD defaultsRef }
  let st1 : St :=
    { st with
      options := opts,
      heap := fun i =>
        if i = opts.breakpoints then _numericSort (st.heap opts.breakpoints)
        else st.heap i }
  let st2 := _bind st1
  let cur := _determineCurrentBreakpoint st2.width (optionsBreakpoints st2)
  let st3 : St := { st2 with currentBreakpoint := .num cur }
  _enterBreakpoint st3 (.num cur)

/-- `_getConfig` (src/index.js lines 113-115): a JSON round trip of
`_options`, i.e. a deep copy — the returned object carries a freshly
allocated breakpoints array whose contents equal the current one. -/
def _getConfig (st : St) : Options × St :=
  let fresh := st.nextRef
  (⟨st.options.classBody, fresh⟩,
   { st with
     heap := fun i => if i = fresh then st.heap st.options.breakpoints else st.heap i,
     nextRef := fresh + 1 })

/-- `_getCurrent` (src/index.js lines 117-119): recompute, store, return. -/
def _getCurrent (st : St) : Int × St :=
  let c := _determineCurrentBreakpoint st.width (optionsBreakpoints st)
  (c, { st with currentBreakpoint := .num c })

/-- `_reset` (src/index.js lines 127-131): unbind, exit the current
breakpoint, set `_currentBreakpoint = null`. -/
def _reset (st : St) : St × List Ev :=
  let st1 := _unbind st
  let r := _exitBreakpoint st1 st1.currentBreakpoint
  ({ r.1 with currentBreakpoint := .null }, r.2)

/-- Delivery of a `resize.breakpoint` event from `signalWindow` carrying
width `w` (src/index.js lines 141-144): only if the subscription is
active; the handler stores the width, then runs `_resize`. -/
def resizeEvent (st : St) (w : Int) : St × List Ev :=
  if st.resizeSubscribed then _resize { st with width := w } else (st, [])

/-- Delivery of a window `focus` event (src/index.js line 146): the DOM
invokes `_resize` exactly when a `focus` listener is registered. -/
def focusEvent (st : St) : St × List Ev :=
  if "focus" ∈ st.domListeners then _resize st else (st, [])

/-- One call into the public API or one event delivery. -/
inductive Op
  | configure (settings : Settings)
  | resizeEv (w : Int)
  | focusEv
  | getCurrent
  | getConfig
  | reset

/-- Apply one operation to the state, discarding return values and
collecting emitted events. -/
def applyOp (st : St) : Op → St × List Ev
  | .configure s => _configure st s
  | .resizeEv w => resizeEvent st w
  | .focusEv => focusEvent st
  | .getCurrent => ((_getCurrent st).2, [])
  | .getConfig => ((_getConfig st).2, [])
  | .reset => _reset st

/-- Run a sequence of operations, keeping only the final state. -/
def runOps (st : St) : List Op → St
  | [] => st
  | op :: ops => runOps (applyOp st op).1 ops

/-! ### Correctness of the breakpoint determination loop -/

/-- Entries of a strictly sorted list are monotone in the index (≤ form). -/
lemma sorted_get?_le (bps : List Int) (hs : List.Sorted (· < ·) bps)
    {i j : Nat} {a c : Int} (hij : i ≤ j) (ha : bps.get? i = some a)
    (hc : bps.get? j = some c) : a ≤ c := by
  obtain ⟨hi, rfl⟩ := List.get?_eq_some.mp ha
  obtain ⟨hj, rfl⟩ := List.get?_eq_some.mp hc
  rcases Nat.lt_or_ge i j with h | h
  · exact le_of_lt (hs.rel_get_of_lt h)
  · have hij2 : i = j := Nat.le_antisymm hij h
    subst hij2
    exact le_refl _

/-- Entries of a strictly sorted list are monotone in the index (< form). -/
lemma sorted_get?_lt (bps : List Int) (hs : List.Sorted (· < ·) bps)
    {i j : Nat} {a c : Int} (hij : i < j) (ha : bps.get? i = some a)
    (hc : bps.get? j = some c) : a < c := by
  obtain ⟨hi, rfl⟩ := List.get?_eq_some.mp ha
  obtain ⟨hj, rfl⟩ := List.get?_eq_some.mp hc
  exact hs.rel_get_of_lt hij

/-- Every value the loop returns is `-1` or an element of the array. -/
lemma detLoop_mem (w : Int) (bps : List Int) :
    ∀ fuel idx, detLoop w bps idx fuel = -1 ∨ detLoop w bps idx fuel ∈ bps := by
  intro fuel
  induction fuel with
  | zero => intro idx; left; rfl
  | succ f ih =>
    intro idx
    rw [detLoop]
    cases hbp : bps.get? idx with
    | none => left; rfl
    | some b =>
      have hmem : b ∈ bps := List.get?_mem hbp
      dsimp only
      split_ifs <;> first | (right; exact hmem) | exact ih (idx + 1)

/-- From iteration `idx ≥ 1` on, if the breakpoint at `idx` is at most the
width, the loop returns the largest breakpoint that is at most the width. -/
lemma detLoop_ge_spec (w : Int) (bps : List Int) (hs : List.Sorted (· < ·) bps)
    (hp : ∀ b ∈ bps, 0 < b) :
    ∀ fuel idx b, idx + fuel = bps.length → 1 ≤ idx → bps.get? idx = some b → b ≤ w →
      detLoop w bps idx fuel ∈ bps ∧ b ≤ detLoop w bps idx fuel ∧
      detLoop w bps idx fuel ≤ w ∧
      ∀ j c, bps.get? j = some c → c ≤ w → c ≤ detLoop w bps idx fuel := by
  intro fuel
  induction fuel with
  | zero =>
    intro idx b hlen hidx hb _hbw
    obtain ⟨hi, -⟩ := List.get?_eq_some.mp hb
    omega
  | succ f ih =>
    intro idx b hlen hidx hb hbw
    have hidxlt : idx < bps.length := (List.get?_eq_some.mp hb).1
    have h0 : ¬ idx = 0 := by omega
    have hprevlt : idx - 1 < bps.length := by omega
    have hprev : bps.get? (idx - 1) = some (bps.get ⟨idx - 1, hprevlt⟩) :=
      List.get?_eq_get hprevlt
    have hprevpos : 0 < bps.get ⟨idx - 1, hprevlt⟩ :=
      hp _ (List.get_mem bps (idx - 1) hprevlt)
    have hprevtruthy : jsTruthy (bps.get? (idx - 1)) = true := by
      rw [hprev]
      simp only [jsTruthy, Bool.not_eq_true', beq_eq_false_iff_ne, ne_eq]
      omega
    rw [detLoop, hb]
    dsimp only
    rw [if_neg h0, hprevtruthy]
    simp only [Bool.not_true, Bool.false_and, Bool.false_eq_true, if_false]
    cases hnext : bps.get? (idx + 1) with
    | none =>
      have hmem : b ∈ bps := List.get?_mem hb
      simp only [jsTruthy, Bool.not_false, if_true]
      refine ⟨hmem, le_refl b, hbw, ?_⟩
      intro j c hc _hcw
      have hj : j < bps.length := (List.get?_eq_some.mp hc).1
      have hlen2 : bps.length ≤ idx + 1 := by
        by_contra hlt
        push_neg at hlt
        rw [List.get?_eq_get hlt] at hnext
        exact Option.noConfusion hnext
      have hjle : j ≤ idx := by omega
      exact sorted_get?_le bps hs hjle hc hb
    | some b2 =>
      have hb2mem : b2 ∈ bps := List.get?_mem hnext
      have hb2pos : 0 < b2 := hp _ hb2mem
      have hb2truthy : jsTruthy (some b2) = true := by
        simp [jsTruthy]; omega
      rw [hb2truthy]
      simp only [Bool.not_true, Bool.false_eq_true, if_false, Option.getD_some]
      have hge : decide (w ≥ b) = true := by simp [ge_iff_le, hbw]
      rw [hge]
      simp only [Bool.true_and]
      by_cases hlt : w < b2
      · have hmem : b ∈ bps := List.get?_mem hb
        rw [if_pos (by simp [hlt])]
        refine ⟨hmem, le_refl b, hbw, ?_⟩
        intro j c hc hcw
        rcases Nat.lt_or_ge j (idx + 1) with hj | hj
        · exact sorted_get?_le bps hs (by omega) hc hb
        · have : b2 ≤ c := sorted_get?_le bps hs hj hnext hc
          omega
      · rw [if_neg (by simp [hlt])]
        have hb2w : b2 ≤ w := by omega
        have hrec := ih (idx + 1) b2 (by omega) (by omega) hnext hb2w
        obtain ⟨hm, hge2, hlew, hmax⟩ := hrec
        refine ⟨hm, ?_, hlew, hmax⟩
        have : b < b2 := sorted_get?_lt bps hs (by omega) hb hnext
        omega

/-- C1: for every ascending sequence of distinct positive breakpoints and
every width, `_determineCurrentBreakpoint` returns `-1` on the empty
sequence, and otherwise returns a member of the sequence that is either
the largest breakpoint at most the width, or the smallest breakpoint when
the width lies below every breakpoint. -/
theorem C1_determineCurrentBreakpoint_spec (bps : List Int) (w : Int)
    (hs : List.Sorted (· < ·) bps) (hp : ∀ b ∈ bps, 0 < b) :
    (bps = [] → _determineCurrentBreakpoint w bps = -1) ∧
    (bps ≠ [] →
      _determineCurrentBreakpoint w bps ∈ bps ∧
      ((_determineCurrentBreakpoint w bps ≤ w ∧
        ∀ b ∈ bps, b ≤ w → b ≤ _determineCurrentBreakpoint w bps) ∨
       ((∀ b ∈ bps, w < b) ∧
        ∀ b ∈ bps, _determineCurrentBreakpoint w bps ≤ b))) := by
  constructor
  · rintro rfl; rfl
  · intro hne
    obtain ⟨b0, rest, rfl⟩ := List.exists_cons_of_ne_nil hne
    obtain ⟨hall, hsrest⟩ := List.sorted_cons.mp hs
    have hb0pos : 0 < b0 := hp b0 (by simp)
    have hb0mem : b0 ∈ b0 :: rest := by simp
    rw [_determineCurrentBreakpoint, List.length_cons, detLoop]
    simp only [List.get?, if_pos rfl, jsTruthy, Bool.not_false, Bool.true_and]
    by_cases hwb0 : w ≤ b0
    · rw [if_pos (by simp [hwb0])]
      refine ⟨hb0mem, ?_⟩
      by_cases hb0w : b0 ≤ w
      · left
        refine ⟨hb0w, ?_⟩
        intro b hb hbw
        rcases List.mem_cons.mp hb with rfl | hbr
        · exact le_refl b
        · have := hall b hbr; omega
      · right
        constructor
        · intro b hb
          rcases List.mem_cons.mp hb with rfl | hbr
          · omega
          · have := hall b hbr; omega
        · intro b hb
          rcases List.mem_cons.mp hb with rfl | hbr
          · exact le_refl _
          · exact le_of_lt (hall b hbr)
    · rw [if_neg (by simp [hwb0])]
      cases rest with
      | nil =>
        simp only [List.get?, Bool.not_false, if_true]
        refine ⟨by simp, ?_⟩
        left
        refine ⟨by omega, ?_⟩
        intro b hb _
        rcases List.mem_cons.mp hb with rfl | hbr
        · exact le_refl b
        · exact absurd hbr (List.not_mem_nil b)
      | cons b1 rest2 =>
        have hb1pos : 0 < b1 := hp b1 (by simp)
        have hb01 : b0 < b1 := hall b1 (by simp)
        obtain ⟨hall2, hsrest2⟩ := List.sorted_cons.mp hsrest
        simp only [List.get?, Option.getD_some, Bool.not_not]
        rw [if_neg (by simp only [beq_iff_eq]; omega)]
        by_cases hwb1 : w < b1
        · have hc : (decide (w ≥ b0) && decide (w < b1)) = true := by
            simp only [Bool.and_eq_true, decide_eq_true_eq, ge_iff_le]
            exact ⟨by omega, hwb1⟩
          rw [if_pos hc]
          refine ⟨by simp, ?_⟩
          left
          refine ⟨by omega, ?_⟩
          intro b hb hbw
          rcases List.mem_cons.mp hb with rfl | hbr
          · exact le_refl b
          · rcases List.mem_cons.mp hbr with rfl | hbr2
            · omega
            · have := hall2 b hbr2; omega
        · have hc : ¬ (decide (w ≥ b0) && decide (w < b1)) = true := by
            simp only [Bool.and_eq_true, decide_eq_true_eq, ge_iff_le, not_and]
            intro _; omega
          rw [if_neg hc]
          have hget1 : (b0 :: b1 :: rest2).get? 1 = some b1 := rfl
          have hrec := detLoop_ge_spec w (b0 :: b1 :: rest2) hs hp
            ((b1 :: rest2).length) 1 b1
            (by simp only [List.length_cons]; omega) (by omega) hget1 (by omega)
          obtain ⟨hm, hgeb1, hlew, hmax⟩ := hrec
          refine ⟨hm, ?_⟩
          left
          refine ⟨hlew, ?_⟩
          intro b hb hbw
          obtain ⟨j, hj⟩ := List.mem_iff_get?.mp hb
          exact hmax j b hj hbw

/-! ### Frame lemmas for the enter/exit notification helpers -/

/-- Entering a breakpoint changes at most the body class list. -/
lemma enterBreakpoint_frame (st : St) (v : BpVal) :
    (_enterBreakpoint st v).1.heap = st.heap ∧
    (_enterBreakpoint st v).1.nextRef = st.nextRef ∧
    (_enterBreakpoint st v).1.width = st.width ∧
    (_enterBreakpoint st v).1.currentBreakpoint = st.currentBreakpoint ∧
    (_enterBreakpoint st v).1.options = st.options ∧
    (_enterBreakpoint st v).1.domListeners = st.domListeners ∧
    (_enterBreakpoint st v).1.resizeSubscribed = st.resizeSubscribed := by
  cases v with
  | null => simp [_enterBreakpoint]
  | undef => simp [_enterBreakpoint]
  | num n =>
    simp only [_enterBreakpoint]
    split_ifs <;> simp

/-- Exiting a breakpoint changes at most the body class list. -/
lemma exitBreakpoint_frame (st : St) (v : BpVal) :
    (_exitBreakpoint st v).1.heap = st.heap ∧
    (_exitBreakpoint st v).1.nextRef = st.nextRef ∧
    (_exitBreakpoint st v).1.width = st.width ∧
    (_exitBreakpoint st v).1.currentBreakpoint = st.currentBreakpoint ∧
    (_exitBreakpoint st v).1.options = st.options ∧
    (_exitBreakpoint st v).1.domListeners = st.domListeners ∧
    (_exitBreakpoint st v).1.resizeSubscribed = st.resizeSubscribed := by
  cases v with
  | null => simp [_exitBreakpoint]
  | undef => simp [_exitBreakpoint]
  | num n =>
    simp only [_exitBreakpoint]
    split_ifs <;> simp

lemma enterBreakpoint_heap (st : St) (v : BpVal) :
    (_enterBreakpoint st v).1.heap = st.heap := (enterBreakpoint_frame st v).1

lemma enterBreakpoint_options (st : St) (v : BpVal) :
    (_enterBreakpoint st v).1.options = st.options :=
  (enterBreakpoint_frame st v).2.2.2.2.1

lemma enterBreakpoint_currentBreakpoint (st : St) (v : BpVal) :
    (_enterBreakpoint st v).1.currentBreakpoint = st.currentBreakpoint :=
  (enterBreakpoint_frame st v).2.2.2.1

lemma enterBreakpoint_width (st : St) (v : BpVal) :
    (_enterBreakpoint st v).1.width = st.width := (enterBreakpoint_frame st v).2.2.1

lemma enterBreakpoint_nextRef (st : St) (v : BpVal) :
    (_enterBreakpoint st v).1.nextRef = st.nextRef := (enterBreakpoint_frame st v).2.1

lemma exitBreakpoint_heap (st : St) (v : BpVal) :
    (_exitBreakpoint st v).1.heap = st.heap := (exitBreakpoint_frame st v).1

lemma exitBreakpoint_options (st : St) (v : BpVal) :
    (_exitBreakpoint st v).1.options = st.options :=
  (exitBreakpoint_frame st v).2.2.2.2.1

lemma exitBreakpoint_currentBreakpoint (st : St) (v : BpVal) :
    (_exitBreakpoint st v).1.currentBreakpoint = st.currentBreakpoint :=
  (exitBreakpoint_frame st v).2.2.2.1

lemma exitBreakpoint_width (st : St) (v : BpVal) :
    (_exitBreakpoint st v).1.width = st.width := (exitBreakpoint_frame st v).2.2.1

lemma exitBreakpoint_nextRef (st : St) (v : BpVal) :
    (_exitBreakpoint st v).1.nextRef = st.nextRef := (exitBreakpoint_frame st v).2.1

lemma enterBreakpoint_domListeners (st : St) (v : BpVal) :
    (_enterBreakpoint st v).1.domListeners = st.domListeners :=
  (enterBreakpoint_frame st v).2.2.2.2.2.1

lemma enterBreakpoint_resizeSubscribed (st : St) (v : BpVal) :
    (_enterBreakpoint st v).1.resizeSubscribed = st.resizeSubscribed :=
  (enterBreakpoint_frame st v).2.2.2.2.2.2

lemma exitBreakpoint_domListeners (st : St) (v : BpVal) :
    (_exitBreakpoint st v).1.domListeners = st.domListeners :=
  (exitBreakpoint_frame st v).2.2.2.2.2.1

lemma exitBreakpoint_resizeSubscribed (st : St) (v : BpVal) :
    (_exitBreakpoint st v).1.resizeSubscribed = st.resizeSubscribed :=
  (exitBreakpoint_frame st v).2.2.2.2.2.2

/-! ### Concrete states used by the witnesses -/

/-- A concrete boot state: the private defaults array at reference 0,
viewport width 600, nothing configured yet. -/
def bootSt : St :=
  { heap := fun i => if i = 0 then defaultsBreakpoints else []
    nextRef := 1
    width := 600
    currentBreakpoint := .undef
    options := { classBody := true, breakpoints := 0 }
    bodyClasses := []
    domListeners := []
    resizeSubscribed := false }

/-- The state after `configure({})` from `bootSt`: active breakpoint 480. -/
def cfgSt : St := (_configure bootSt { classBody := none, breakpoints := none }).1

/-- C1 witness: the spec scenario `[320, 480, 768, 992, 1200]` at width
600, where the determined breakpoint is 480. -/
theorem C1_determineCurrentBreakpoint_spec_witness :
    List.Sorted (· < ·) ([320, 480, 768, 992, 1200] : List Int) ∧
    (∀ b ∈ ([320, 480, 768, 992, 1200] : List Int), 0 < b) ∧
    (([320, 480, 768, 992, 1200] : List Int) ≠ [] →
      _determineCurrentBreakpoint 600 [320, 480, 768, 992, 1200] ∈
          ([320, 480, 768, 992, 1200] : List Int) ∧
      ((_determineCurrentBreakpoint 600 [320, 480, 768, 992, 1200] ≤ 600 ∧
        ∀ b ∈ ([320, 480, 768, 992, 1200] : List Int), b ≤ 600 →
          b ≤ _determineCurrentBreakpoint 600 [320, 480, 768, 992, 1200]) ∨
       ((∀ b ∈ ([320, 480, 768, 992, 1200] : List Int), (600 : Int) < b) ∧
        ∀ b ∈ ([320, 480, 768, 992, 1200] : List Int),
          _determineCurrentBreakpoint 600 [320, 480, 768, 992, 1200] ≤ b))) :=
  ⟨by decide, by decide,
   (C1_determineCurrentBreakpoint_spec [320, 480, 768, 992, 1200] 600
      (by decide) (by decide)).2⟩

/-- C2: when a delivered resize event carries a width whose recomputed
bucket equals the currently active breakpoint, no notification fires and
the state is unchanged except for the stored width; likewise a focus
delivery whose recomputed bucket (from the stored width) equals the
active breakpoint fires nothing and changes nothing. -/
theorem C2_same_bucket_noop (st : St) (w : Int) :
    (st.resizeSubscribed = true →
      BpVal.num (_determineCurrentBreakpoint w (optionsBreakpoints st))
          = st.currentBreakpoint →
      resizeEvent st w = ({ st with width := w }, [])) ∧
    ("focus" ∈ st.domListeners →
      BpVal.num (_determineCurrentBreakpoint st.width (optionsBreakpoints st))
          = st.currentBreakpoint →
      focusEvent st = (st, [])) := by
  constructor
  · intro hs he
    simp only [resizeEvent, if_pos hs, _resize, optionsBreakpoints] at he ⊢
    rw [if_pos he]
  · intro hf he
    simp only [focusEvent, if_pos hf, _resize, optionsBreakpoints] at he ⊢
    rw [if_pos he]

/-- C2 witness: in the configured state (active breakpoint 480), a resize
to width 700 (still bucket 480) and a focus delivery are both no-ops. -/
theorem C2_same_bucket_noop_witness :
    resizeEvent cfgSt 700 = ({ cfgSt with width := 700 }, []) ∧
    focusEvent cfgSt = (cfgSt, []) :=
  ⟨(C2_same_bucket_noop cfgSt 700).1 (by rfl) (by decide),
   (C2_same_bucket_noop cfgSt 700).2 (by decide) (by decide)⟩

/-- C3: when a delivered resize event changes the bucket from a positive
active breakpoint `oldBp` to a different positive bucket `newBp`, the
emitted trace is exactly the breakpoint-specific exit signal for `oldBp`,
the generic exit signal, the breakpoint-specific enter signal for
`newBp`, then the generic enter signal, each carrying the corresponding
breakpoint value as payload; the active state afterwards is `newBp`
(the assignment to `_currentBreakpoint` is the last statement of
`_resize`, after both trigger calls). -/
theorem C3_transition_signal_order (st : St) (w oldBp newBp : Int)
    (hsub : st.resizeSubscribed = true)
    (hcur : st.currentBreakpoint = BpVal.num oldBp)
    (holdpos : 0 < oldBp)
    (hdet : _determineCurrentBreakpoint w (optionsBreakpoints st) = newBp)
    (hnewpos : 0 < newBp)
    (hne : newBp ≠ oldBp) :
    (resizeEvent st w).2 =
      [Ev.exitBp oldBp oldBp, Ev.exit oldBp,
       Ev.enterBp newBp newBp, Ev.enter newBp] ∧
    (resizeEvent st w).1.currentBreakpoint = BpVal.num newBp := by
  have hdet2 : _determineCurrentBreakpoint ({ st with width := w }).width
      (optionsBreakpoints { st with width := w }) = newBp := hdet
  rw [resizeEvent, if_pos hsub, _resize]
  dsimp only
  rw [hdet2]
  have hguard : ¬ (BpVal.num newBp = ({ st with width := w }).currentBreakpoint) := by
    dsimp only
    rw [hcur]
    intro hcon
    exact hne (BpVal.num.inj hcon)
  rw [if_neg hguard]
  dsimp only
  have hcur2 : ({ st with width := w }).currentBreakpoint = BpVal.num oldBp := hcur
  rw [hcur2, _exitBreakpoint]
  dsimp only
  rw [if_neg (by omega)]
  simp only [_enterBreakpoint]
  rw [if_neg (by omega)]
  exact ⟨rfl, trivial⟩

/-- C3 witness: from the configured state (active 480), a resize to 1300
moves to bucket 1200 and emits exactly the four signals in order. -/
theorem C3_transition_signal_order_witness :
    (resizeEvent cfgSt 1300).2 =
      [Ev.exitBp 480 480, Ev.exit 480, Ev.enterBp 1200 1200, Ev.enter 1200] ∧
    (resizeEvent cfgSt 1300).1.currentBreakpoint = BpVal.num 1200 :=
  C3_transition_signal_order cfgSt 1300 480 1200 (by rfl) (by decide)
    (by decide) (by decide) (by decide) (by decide)

/-- C4: for a breakpoint value that is `null`, zero, negative, or the
sentinel `-1`, neither `_enterBreakpoint` nor `_exitBreakpoint` emits any
notification or changes any state (in particular the body class list):
the guard `!breakpoint || breakpoint <= 0` returns first. -/
theorem C4_nonpositive_no_notification (st : St) (v : BpVal)
    (h : v = BpVal.null ∨ v = BpVal.num 0 ∨
         (∃ n : Int, n < 0 ∧ v = BpVal.num n) ∨ v = BpVal.num (-1)) :
    _enterBreakpoint st v = (st, []) ∧ _exitBreakpoint st v = (st, []) := by
  rcases h with rfl | rfl | ⟨n, hn, rfl⟩ | rfl
  · exact ⟨rfl, rfl⟩
  · constructor
    · simp only [_enterBreakpoint]; rw [if_pos (by simp)]
    · simp only [_exitBreakpoint]; rw [if_pos (by simp)]
  · constructor
    · simp only [_enterBreakpoint]; rw [if_pos (Or.inr (le_of_lt hn))]
    · simp only [_exitBreakpoint]; rw [if_pos (Or.inr (le_of_lt hn))]
  · constructor
    · simp only [_enterBreakpoint]; rw [if_pos (Or.inr (by norm_num))]
    · simp only [_exitBreakpoint]; rw [if_pos (Or.inr (by norm_num))]

/-- C4 witness: the sentinel `-1` triggers nothing in the boot state. -/
theorem C4_nonpositive_no_notification_witness :
    _enterBreakpoint bootSt (BpVal.num (-1)) = (bootSt, []) ∧
    _exitBreakpoint bootSt (BpVal.num (-1)) = (bootSt, []) :=
  C4_nonpositive_no_notification bootSt (BpVal.num (-1))
    (Or.inr (Or.inr (Or.inr rfl)))

/-- Evaluating `_reset` on a state whose active breakpoint is already
`null`: the exit guard fires and nothing is emitted. -/
lemma reset_of_null (s : St) (h : s.currentBreakpoint = BpVal.null) :
    _reset s = ({ _unbind s with currentBreakpoint := BpVal.null }, []) := by
  rw [_reset]
  have h1 : (_unbind s).currentBreakpoint = BpVal.null := h
  rw [h1]
  rfl

/-- C8: `reset` is idempotent with respect to the tracker state the claim
names (active breakpoint and stored width) and the emitted notifications:
a `reset` on an already-reset tracker emits nothing and leaves both
components unchanged, so two consecutive `reset` calls yield the same
active breakpoint, the same width and the same total notification trace
as a single call. -/
theorem C8_reset_idempotent (st : St) (halready : st.currentBreakpoint = BpVal.null) :
    (_reset st).2 = [] ∧
    (_reset st).1.currentBreakpoint = st.currentBreakpoint ∧
    (_reset st).1.width = st.width ∧
    (_reset (_reset st).1).2 = [] ∧
    (_reset (_reset st).1).1.currentBreakpoint = (_reset st).1.currentBreakpoint ∧
    (_reset (_reset st).1).1.width = (_reset st).1.width := by
  rw [reset_of_null st halready]
  rw [reset_of_null _ rfl]
  refine ⟨rfl, ?_, rfl, rfl, rfl, rfl⟩
  rw [halready]

/-- C8 witness: resetting the already-reset configured state is a no-op
on the active breakpoint, the width and the notification trace. -/
theorem C8_reset_idempotent_witness :
    (_reset (_reset cfgSt).1).2 = [] ∧
    (_reset (_reset cfgSt).1).1.currentBreakpoint = (_reset cfgSt).1.currentBreakpoint ∧
    (_reset (_reset cfgSt).1).1.width = (_reset cfgSt).1.width ∧
    (_reset (_reset (_reset cfgSt).1).1).2 = [] ∧
    (_reset (_reset (_reset cfgSt).1).1).1.currentBreakpoint
      = (_reset (_reset cfgSt).1).1.currentBreakpoint ∧
    (_reset (_reset (_reset cfgSt).1).1).1.width = (_reset (_reset cfgSt).1).1.width :=
  C8_reset_idempotent (_reset cfgSt).1 (by decide)

/-- C10: `configure` with a caller-supplied breakpoints array keeps a
reference to that very array (no copy) and sorts it in place: after
`configure` returns, the heap cell the caller passed holds the
ascending permutation of its previous contents, and `_options` aliases
that same cell. -/
theorem C10_configure_sorts_callers_array (st : St) (cb : Option Bool) (r : Nat) :
    ((_configure st ⟨cb, some r⟩).1.options.breakpoints = r) ∧
    ((_configure st ⟨cb, some r⟩).1.heap r = _numericSort (st.heap r)) ∧
    List.Sorted (· ≤ ·) ((_configure st ⟨cb, some r⟩).1.heap r) ∧
    List.Perm ((_configure st ⟨cb, some r⟩).1.heap r) (st.heap r) := by
  rw [_configure]
  dsimp only
  rw [enterBreakpoint_options, enterBreakpoint_heap]
  simp only [_bind]
  dsimp only [Option.getD_some]
  rw [if_pos rfl]
  refine ⟨rfl, rfl, ?_, ?_⟩
  · exact List.sorted_insertionSort _ _
  · exact List.perm_insertionSort _ _

/-- C5: evaluated on the concrete configured state (active breakpoint
480), `reset` fires the exit pair exactly once and clears the active
state, but the unsubscription claimed by the spec fails in the code:
`Dom.prototype.off` calls `addEventListener` (src/index.js line 45)
instead of `removeEventListener`, so the window `focus` listener is
still installed after `reset()` and the next focus delivery fires enter
notifications again. -/
theorem C5_reset_unbind_bug :
    ((_reset cfgSt).2 = [Ev.exitBp 480 480, Ev.exit 480]) ∧
    ((_reset cfgSt).1.currentBreakpoint = BpVal.null) ∧
    ("focus" ∈ (_reset cfgSt).1.domListeners) ∧
    ((focusEvent (_reset cfgSt).1).2 = [Ev.enterBp 480 480, Ev.enter 480]) := by
  decide

/-! ### Preservation of the defaults object (C6) -/

/-- The `_defaults` values are intact: the defaults array cell holds its
literal, and the allocation counter is positive so fresh allocations
can never hit the defaults cell. (`_defaults.classBody` is a by-value
boolean that no statement in the source ever writes, so only the array
cell needs tracking.) -/
def DefaultsIntact (st : St) : Prop :=
  st.heap defaultsRef = defaultsBreakpoints ∧ 0 < st.nextRef

/-- Sorting the already ascending defaults array leaves it unchanged. -/
lemma numericSort_defaults : _numericSort defaultsBreakpoints = defaultsBreakpoints := by
  decide

lemma reset_heap (st : St) : (_reset st).1.heap = st.heap := by
  rw [_reset]
  dsimp only
  rw [exitBreakpoint_heap]
  rfl

lemma reset_nextRef (st : St) : (_reset st).1.nextRef = st.nextRef := by
  rw [_reset]
  dsimp only
  rw [exitBreakpoint_nextRef]
  rfl

lemma reset_options (st : St) : (_reset st).1.options = st.options := by
  rw [_reset]
  dsimp only
  rw [exitBreakpoint_options]
  rfl

/-- `_resize` changes at most `currentBreakpoint` and the body classes. -/
lemma resize_frame (st : St) :
    (_resize st).1.heap = st.heap ∧ (_resize st).1.nextRef = st.nextRef ∧
    (_resize st).1.options = st.options ∧ (_resize st).1.width = st.width ∧
    (_resize st).1.domListeners = st.domListeners ∧
    (_resize st).1.resizeSubscribed = st.resizeSubscribed := by
  rw [_resize]
  dsimp only
  split
  · exact ⟨rfl, rfl, rfl, rfl, rfl, rfl⟩
  · dsimp only
    rw [enterBreakpoint_heap, exitBreakpoint_heap, enterBreakpoint_nextRef,
      exitBreakpoint_nextRef, enterBreakpoint_options, exitBreakpoint_options,
      enterBreakpoint_width, exitBreakpoint_width, enterBreakpoint_domListeners,
      exitBreakpoint_domListeners, enterBreakpoint_resizeSubscribed,
      exitBreakpoint_resizeSubscribed]
    exact ⟨rfl, rfl, rfl, rfl, rfl, rfl⟩

/-- The heap after `_configure`: the options cell is sorted in place,
every other cell is untouched. -/
lemma configure_heap_at (st : St) (s : Settings) (i : Nat) :
    (_configure st s).1.heap i =
      (if i = s.breakpoints.getD defaultsRef
        then _numericSort (st.heap (s.breakpoints.getD defaultsRef))
        else st.heap i) := by
  rw [_configure]
  dsimp only
  rw [enterBreakpoint_heap]
  rfl

/-- The options object after `_configure` is the settings merged over
the defaults. -/
lemma configure_options (st : St) (s : Settings) :
    (_configure st s).1.options =
      { classBody := s.classBody.getD defaultsClassBody,
        breakpoints := s.breakpoints.getD defaultsRef } := by
  rw [_configure]
  dsimp only
  rw [enterBreakpoint_options]
  rfl

lemma configure_nextRef (st : St) (s : Settings) :
    (_configure st s).1.nextRef = st.nextRef := by
  rw [_configure]
  dsimp only
  rw [enterBreakpoint_nextRef]
  rfl

/-- One operation preserves the defaults, provided a `configure` call in
it does not pass the private defaults array itself (callers cannot: the
`_defaults` object never escapes the module closure). -/
lemma applyOp_defaults (st : St) (op : Op) (h : DefaultsIntact st)
    (hop : ∀ s, op = Op.configure s → s.breakpoints ≠ some 0) :
    DefaultsIntact (applyOp st op).1 := by
  obtain ⟨hd, hn⟩ := h
  cases op with
  | configure s =>
    have hs := hop s rfl
    rw [applyOp]
    constructor
    · rw [configure_heap_at]
      cases hb : s.breakpoints with
      | none =>
        simp only [hb, Option.getD_none, if_true]
        rw [hd, numericSort_defaults]
      | some r =>
        have hr : r ≠ 0 := fun hr0 => hs (by rw [hb, hr0])
        simp only [hb, Option.getD_some]
        rw [if_neg (by simp [defaultsRef]; omega), hd]
    · rw [configure_nextRef]; exact hn
  | resizeEv w =>
    rw [applyOp, resizeEvent]
    split
    · obtain ⟨hh, hnr, -, -, -, -⟩ := resize_frame { st with width := w }
      exact ⟨by rw [hh]; exact hd, by rw [hnr]; exact hn⟩
    · exact ⟨hd, hn⟩
  | focusEv =>
    rw [applyOp, focusEvent]
    split
    · obtain ⟨hh, hnr, -, -, -, -⟩ := resize_frame st
      exact ⟨by rw [hh]; exact hd, by rw [hnr]; exact hn⟩
    · exact ⟨hd, hn⟩
  | getCurrent => exact ⟨hd, hn⟩
  | getConfig =>
    rw [applyOp]
    constructor
    · rw [_getConfig]
      dsimp only
      rw [if_neg (by simp [defaultsRef]; omega)]
      exact hd
    · rw [_getConfig]
      dsimp only
      omega
  | reset =>
    exact ⟨by rw [applyOp, reset_heap]; exact hd, by rw [applyOp, reset_nextRef]; exact hn⟩

/-- Any operation sequence preserves the defaults. -/
lemma runOps_defaults (st : St) (ops : List Op) (h : DefaultsIntact st)
    (hops : ∀ op ∈ ops, ∀ s, op = Op.configure s → s.breakpoints ≠ some 0) :
    DefaultsIntact (runOps st ops) := by
  induction ops generalizing st with
  | nil => exact h
  | cons op ops ih =>
    rw [runOps]
    exact ih (applyOp st op).1
      (applyOp_defaults st op h (hops op (List.mem_cons_self op ops)))
      (fun o ho => hops o (List.mem_cons_of_mem op ho))

/-- C6: `configure` merges the settings over the defaults (`classBody`
defaulting to `true`, `breakpoints` to the defaults array) and sorts the
breakpoints ascending; and across any sequence of further operations the
defaults keep their original values (even when `configure` aliases the
defaults array into `_options` and sorts it in place, the sort of the
already ascending defaults is the identity). -/
theorem C6_configure_merge_defaults_preserved (st : St) (settings : Settings)
    (ops : List Op)
    (hheap : st.heap defaultsRef = defaultsBreakpoints)
    (hnext : 0 < st.nextRef)
    (hops : ∀ op ∈ ops, ∀ s, op = Op.configure s → s.breakpoints ≠ some 0) :
    ((_configure st settings).1.options.classBody
        = settings.classBody.getD defaultsClassBody) ∧
    ((_configure st settings).1.options.breakpoints
        = settings.breakpoints.getD defaultsRef) ∧
    ((_configure st settings).1.heap ((_configure st settings).1.options.breakpoints)
        = _numericSort (st.heap (settings.breakpoints.getD defaultsRef))) ∧
    List.Sorted (· ≤ ·) (optionsBreakpoints (_configure st settings).1) ∧
    (runOps st ops).heap defaultsRef = defaultsBreakpoints := by
  refine ⟨by rw [configure_options], by rw [configure_options], ?_, ?_, ?_⟩
  · rw [configure_options, configure_heap_at]
    dsimp only
    rw [if_pos rfl]
  · rw [optionsBreakpoints, configure_options, configure_heap_at]
    dsimp only
    rw [if_pos rfl]
    exact List.sorted_insertionSort _ _
  · exact (runOps_defaults st ops ⟨hheap, hnext⟩ hops).1

/-- C6 witness: configuring `{classBody := false, breakpoints := ref 5}`
from the boot state merges over the defaults, and a subsequent
resize/reset/getConfig sequence leaves the defaults cell intact. -/
theorem C6_configure_merge_defaults_preserved_witness :
    (bootSt.heap defaultsRef = defaultsBreakpoints) ∧
    (0 < bootSt.nextRef) ∧
    (((_configure bootSt ⟨some false, some 5⟩).1.options.classBody
        = (Option.some false).getD defaultsClassBody) ∧
     ((_configure bootSt ⟨some false, some 5⟩).1.options.breakpoints
        = (Option.some 5).getD defaultsRef) ∧
     ((_configure bootSt ⟨some false, some 5⟩).1.heap
          ((_configure bootSt ⟨some false, some 5⟩).1.options.breakpoints)
        = _numericSort (bootSt.heap ((Option.some 5).getD defaultsRef))) ∧
     List.Sorted (· ≤ ·) (optionsBreakpoints (_configure bootSt ⟨some false, some 5⟩).1) ∧
     (runOps bootSt [Op.resizeEv 100, Op.reset, Op.getConfig]).heap defaultsRef
        = defaultsBreakpoints) :=
  ⟨by decide, by decide,
   C6_configure_merge_defaults_preserved bootSt ⟨some false, some 5⟩
     [Op.resizeEv 100, Op.reset, Op.getConfig] (by decide) (by decide)
     (by intro op hop s heq; subst heq; simp at hop)⟩

/-- Models the caller overwriting the contents of an array it holds a
reference to (the array handed out by `getConfig`). -/
def writeArr (st : St) (r : Nat) (l : List Int) : St :=
  { st with heap := fun i => if i = r then l else st.heap i }

/-- C7: `getConfig` returns a structurally equal copy of the current
configuration (same `classBody`, same breakpoints contents, sortedness
included) living in a freshly allocated cell distinct from the internal
one, and for every mutation of the returned array the internal array and
the result of a subsequent `getConfig` are unaffected.  (`classBody` is
returned by value, so mutating it on the copy trivially cannot reach the
tracker.) -/
theorem C7_getConfig_deep_copy (st : St) (hwf : st.options.breakpoints < st.nextRef) :
    ((_getConfig st).1.classBody = st.options.classBody) ∧
    ((_getConfig st).2.heap ((_getConfig st).1.breakpoints) = optionsBreakpoints st) ∧
    ((_getConfig st).1.breakpoints ≠ st.options.breakpoints) ∧
    (List.Sorted (· ≤ ·) (optionsBreakpoints st) →
      List.Sorted (· ≤ ·) ((_getConfig st).2.heap ((_getConfig st).1.breakpoints))) ∧
    (∀ l : List Int,
      (writeArr (_getConfig st).2 ((_getConfig st).1.breakpoints) l).heap
          st.options.breakpoints = optionsBreakpoints st ∧
      (_getConfig (writeArr (_getConfig st).2 ((_getConfig st).1.breakpoints) l)).1.classBody
          = st.options.classBody ∧
      (_getConfig (writeArr (_getConfig st).2 ((_getConfig st).1.breakpoints) l)).2.heap
          ((_getConfig (writeArr (_getConfig st).2
              ((_getConfig st).1.breakpoints) l)).1.breakpoints)
          = optionsBreakpoints st) := by
  have hcopy : (_getConfig st).2.heap ((_getConfig st).1.breakpoints)
      = optionsBreakpoints st := by
    rw [_getConfig]
    dsimp only
    rw [if_pos rfl]
    rfl
  refine ⟨rfl, hcopy, by rw [_getConfig]; dsimp only; omega,
    fun hsort => hcopy ▸ hsort, ?_⟩
  intro l
  refine ⟨?_, rfl, ?_⟩
  · rw [writeArr, _getConfig]
    dsimp only
    rw [if_neg (by omega), if_neg (by omega)]
    rfl
  · rw [writeArr, _getConfig, _getConfig]
    dsimp only
    rw [if_pos rfl, if_neg (by omega), if_neg (by omega)]
    rfl

/-- C7 witness: the deep-copy properties at the configured state, whose
internal array lives at cell 0 while `nextRef` is 1. -/
theorem C7_getConfig_deep_copy_witness :
    (cfgSt.options.breakpoints < cfgSt.nextRef) ∧
    (((_getConfig cfgSt).1.classBody = cfgSt.options.classBody) ∧
     ((_getConfig cfgSt).2.heap ((_getConfig cfgSt).1.breakpoints)
        = optionsBreakpoints cfgSt) ∧
     ((_getConfig cfgSt).1.breakpoints ≠ cfgSt.options.breakpoints) ∧
     (List.Sorted (· ≤ ·) (optionsBreakpoints cfgSt) →
       List.Sorted (· ≤ ·) ((_getConfig cfgSt).2.heap ((_getConfig cfgSt).1.breakpoints))) ∧
     (∀ l : List Int,
       (writeArr (_getConfig cfgSt).2 ((_getConfig cfgSt).1.breakpoints) l).heap
           cfgSt.options.breakpoints = optionsBreakpoints cfgSt ∧
       (_getConfig (writeArr (_getConfig cfgSt).2
           ((_getConfig cfgSt).1.breakpoints) l)).1.classBody
           = cfgSt.options.classBody ∧
       (_getConfig (writeArr (_getConfig cfgSt).2
           ((_getConfig cfgSt).1.breakpoints) l)).2.heap
           ((_getConfig (writeArr (_getConfig cfgSt).2
               ((_getConfig cfgSt).1.breakpoints) l)).1.breakpoints)
           = optionsBreakpoints cfgSt)) :=
  ⟨by decide, C7_getConfig_deep_copy cfgSt (by decide)⟩

/-! ### The reachable-state invariant (C9) -/

/-- The code's two "no active bucket" sentinel representations: `-1`
(returned by `_determineCurrentBreakpoint` on an empty sequence) and
`null` (written by `_reset`).  `undefined`, the pre-configure value, is
not a sentinel: it is unreachable after `configure`. -/
def isSentinel : BpVal → Prop
  | .num n => n = -1
  | .null => True
  | .undef => False

/-- The C9 invariant over tracker states: the configured breakpoints are
ascending, the options cell lies below the allocation counter, and the
active breakpoint is a member of the configured sequence or a sentinel. -/
def Inv (st : St) : Prop :=
  st.options.breakpoints < st.nextRef ∧
  List.Sorted (· ≤ ·) (optionsBreakpoints st) ∧
  (isSentinel st.currentBreakpoint ∨
    ∃ b ∈ optionsBreakpoints st, st.currentBreakpoint = BpVal.num b)

/-- The determined breakpoint is `-1` or a member of the array. -/
lemma determine_mem (w : Int) (bps : List Int) :
    _determineCurrentBreakpoint w bps = -1 ∨ _determineCurrentBreakpoint w bps ∈ bps :=
  detLoop_mem w bps bps.length 0

/-- `_resize` leaves the active breakpoint alone or stores the freshly
determined one. -/
lemma resize_current (st : St) :
    (_resize st).1.currentBreakpoint = st.currentBreakpoint ∨
    (_resize st).1.currentBreakpoint
      = BpVal.num (_determineCurrentBreakpoint st.width (optionsBreakpoints st)) := by
  rw [_resize]
  dsimp only
  split
  · left; rfl
  · right
    rfl

lemma resize_Inv (st : St) (h : Inv st) : Inv (_resize st).1 := by
  obtain ⟨hf1, hf2, hf3, -, -, -⟩ := resize_frame st
  have hbps : optionsBreakpoints (_resize st).1 = optionsBreakpoints st := by
    simp only [optionsBreakpoints]
    rw [hf1, hf3]
  refine ⟨by rw [hf2, hf3]; exact h.1, by rw [hbps]; exact h.2.1, ?_⟩
  rcases resize_current st with hc | hc
  · rw [hc, hbps]
    exact h.2.2
  · rcases determine_mem st.width (optionsBreakpoints st) with hd | hd
    · left
      rw [hc, hd]
      exact rfl
    · right
      exact ⟨_, by rw [hbps]; exact hd, hc⟩

/-- Every non-`configure` operation preserves the invariant. -/
lemma applyOp_Inv (st : St) (op : Op) (h : Inv st)
    (hop : ∀ s, op ≠ Op.configure s) : Inv (applyOp st op).1 := by
  cases op with
  | configure s => exact absurd rfl (hop s)
  | resizeEv w =>
    rw [applyOp, resizeEvent]
    split
    · exact resize_Inv { st with width := w } ⟨h.1, h.2.1, h.2.2⟩
    · exact h
  | focusEv =>
    rw [applyOp, focusEvent]
    split
    · exact resize_Inv st h
    · exact h
  | getCurrent =>
    rw [applyOp, _getCurrent]
    dsimp only
    refine ⟨h.1, h.2.1, ?_⟩
    rcases determine_mem st.width (optionsBreakpoints st) with hd | hd
    · left
      rw [hd]
      exact rfl
    · right
      exact ⟨_, hd, rfl⟩
  | getConfig =>
    rw [applyOp, _getConfig]
    dsimp only
    have h1 : st.options.breakpoints < st.nextRef := h.1
    have hne : ¬ st.options.breakpoints = st.nextRef := by omega
    refine ⟨by dsimp only; omega, ?_, ?_⟩
    · simp only [optionsBreakpoints]
      rw [if_neg hne]
      exact h.2.1
    · rcases h.2.2 with hs | ⟨b, hb, hc⟩
      · left; exact hs
      · right
        refine ⟨b, ?_, hc⟩
        simp only [optionsBreakpoints]
        rw [if_neg hne]
        exact hb
  | reset =>
    rw [applyOp]
    have hbps : optionsBreakpoints (_reset st).1 = optionsBreakpoints st := by
      simp only [optionsBreakpoints]
      rw [reset_heap, reset_options]
    have hcur : (_reset st).1.currentBreakpoint = BpVal.null := by
      rw [_reset]
    refine ⟨by rw [reset_nextRef, reset_options]; exact h.1,
      by rw [hbps]; exact h.2.1, ?_⟩
    left
    rw [hcur]
    exact trivial

lemma runOps_Inv (st : St) (ops : List Op) (h : Inv st)
    (hops : ∀ op ∈ ops, ∀ s, op ≠ Op.configure s) : Inv (runOps st ops) := by
  induction ops generalizing st with
  | nil => exact h
  | cons op ops ih =>
    rw [runOps]
    exact ih (applyOp st op).1
      (applyOp_Inv st op h (hops op (List.mem_cons_self op ops)))
      (fun o ho => hops o (List.mem_cons_of_mem op ho))

/-- The active breakpoint written by `_configure`. -/
lemma configure_current (st : St) (s : Settings) :
    (_configure st s).1.currentBreakpoint
      = BpVal.num (_determineCurrentBreakpoint st.width
          (_numericSort (st.heap (s.breakpoints.getD defaultsRef)))) := by
  rw [_configure]
  dsimp only
  rw [enterBreakpoint_currentBreakpoint]
  simp only [_bind, optionsBreakpoints, if_true]

/-- `configure` establishes the invariant, provided the settings array
reference is one the caller could hold (below the allocation counter). -/
lemma configure_Inv (st : St) (s : Settings)
    (href : s.breakpoints.getD defaultsRef < st.nextRef) :
    Inv (_configure st s).1 := by
  have hbps : optionsBreakpoints (_configure st s).1
      = _numericSort (st.heap (s.breakpoints.getD defaultsRef)) := by
    simp only [optionsBreakpoints]
    rw [configure_options, configure_heap_at]
    dsimp only
    rw [if_pos rfl]
  refine ⟨?_, ?_, ?_⟩
  · rw [configure_nextRef, configure_options]
    exact href
  · rw [hbps]
    exact List.sorted_insertionSort _ _
  · rcases determine_mem st.width
        (_numericSort (st.heap (s.breakpoints.getD defaultsRef))) with hd | hd
    · left
      rw [configure_current, hd]
      exact rfl
    · right
      exact ⟨_, by rw [hbps]; exact hd, by rw [configure_current]⟩

/-- C9: in every state reachable after a `configure` call through any
sequence of resize events, focus events, `getCurrent`, `getConfig` and
`reset` calls, the configured breakpoints sequence is numerically
ascending and the active breakpoint is a member of that sequence or a
sentinel (`-1` from the determination loop, or the `null` that `reset`
writes — the code's two representations of "no active bucket"). -/
theorem C9_reachable_state_invariant (st0 : St) (settings : Settings) (ops : List Op)
    (href : settings.breakpoints.getD defaultsRef < st0.nextRef)
    (hops : ∀ op ∈ ops, ∀ s, op ≠ Op.configure s) :
    Inv (runOps (_configure st0 settings).1 ops) :=
  runOps_Inv (_configure st0 settings).1 ops (configure_Inv st0 settings href) hops

/-- C9 witness: the invariant after `configure({})` from the boot state
followed by a resize to 1300, `getCurrent`, `reset`, a focus delivery,
`getConfig` and a resize to 100. -/
theorem C9_reachable_state_invariant_witness :
    ((Settings.mk none none).breakpoints.getD defaultsRef < bootSt.nextRef) ∧
    Inv (runOps (_configure bootSt ⟨none, none⟩).1
      [Op.resizeEv 1300, Op.getCurrent, Op.reset, Op.focusEv, Op.getConfig,
       Op.resizeEv 100]) :=
  ⟨by decide,
   C9_reachable_state_invariant bootSt ⟨none, none⟩
     [Op.resizeEv 1300, Op.getCurrent, Op.reset, Op.focusEv, Op.getConfig,
      Op.resizeEv 100]
     (by decide) (by intro op hop s heq; subst heq; simp at hop)⟩

end Breakpoints
